import Mathlib

/-!
Shallow embedding of the CHIP-8 interpreter core (`src/chip8.rs`).

Machine words are modelled as `Nat` with explicit `% 2^w` wherever the Rust
code performs wrapping arithmetic.  Fixed-size Rust arrays (`memory`, `stack`,
`display`, `registers`, `keys`) are modelled as total functions out of `Nat`;
every array access whose index can actually go out of range in the Rust code
(memory fetches in `draw`/`load_bcd`/`store_memory`/`load_memory`/`fetch`,
stack accesses in `call`/`ret`, the `keys[Vx]` lookup) carries an explicit
bound check, and the corresponding Rust panic is modelled as a typed
`Except` error.  Time-based pacing, audio output and the host key remapping
are I/O side channels and are not part of the embedded state.
-/

/-- Pointwise update of a function modelling a Rust array-element assignment
`a[k] = v`. -/
def upd (f : Nat → Nat) (k v : Nat) : Nat → Nat :=
  fun j => if j = k then v else f j

/-- Error conditions of the machine.  `invalidOpcode` models the
`panic!("Invalid instruction: ...")` arms of `Instruction::from`; the stack
and memory faults model the Rust bounds-check panics at the corresponding
array accesses. -/
inductive Chip8Error where
  | invalidOpcode (opcode : Nat)
  | stackOverflow
  | stackUnderflow
  | memoryFault
  | keyFault
deriving DecidableEq

/-- The instruction sum type from `src/chip8.rs` (`enum Instruction`). -/
inductive Instruction where
  | clear
  | ret
  | jump (nnn : Nat)
  | call (nnn : Nat)
  | skipEqualByte (x nn : Nat)
  | skipNotEqualByte (x nn : Nat)
  | skipEqualRegisters (x y : Nat)
  | loadByte (x nn : Nat)
  | addRegister (x nn : Nat)
  | loadRegister (x y : Nat)
  | or (x y : Nat)
  | and (x y : Nat)
  | xor (x y : Nat)
  | add (x y : Nat)
  | subtract (x y : Nat)
  | shr (x y : Nat)
  | subtractRev (x y : Nat)
  | shl (x y : Nat)
  | skipNotEqualRegisters (x y : Nat)
  | loadI (nnn : Nat)
  | jumpOffset (x nnn : Nat)
  | random (x nn : Nat)
  | draw (x y n : Nat)
  | skipKeyPressed (x : Nat)
  | skipKeyReleased (x : Nat)
  | loadDelayTimer (x : Nat)
  | getKey (x : Nat)
  | setDelayTimer (x : Nat)
  | setSoundTimer (x : Nat)
  | addI (x : Nat)
  | loadFont (x : Nat)
  | loadBcd (x : Nat)
  | storeMemory (x : Nat)
  | loadMemory (x : Nat)
deriving DecidableEq

/-- Top nibble of an opcode: `(opcode & 0xF000) >> 12`. -/
def opI (opcode : Nat) : Nat := opcode / 4096 % 16

/-- Second nibble of an opcode: `(opcode & 0x0F00) >> 8`. -/
def opX (opcode : Nat) : Nat := opcode / 256 % 16

/-- Third nibble of an opcode: `(opcode & 0x00F0) >> 4`. -/
def opY (opcode : Nat) : Nat := opcode / 16 % 16

/-- Low nibble of an opcode: `opcode & 0x000F`. -/
def opN (opcode : Nat) : Nat := opcode % 16

/-- Low byte of an opcode: `opcode & 0x00FF`. -/
def opNN (opcode : Nat) : Nat := opcode % 256

/-- Low 12 bits of an opcode: `opcode & 0x0FFF`. -/
def opNNN (opcode : Nat) : Nat := opcode % 4096

/-- Decoder `Instruction::from` of `src/chip8.rs`.  The `panic!` arms are
modelled as `Except.error (.invalidOpcode opcode)`. -/
def Instruction.fromOpcode (opcode : Nat) : Except Chip8Error Instruction :=
  if opI opcode = 0x0 then
    if opNN opcode = 0xE0 then .ok .clear
    else if opNN opcode = 0xEE then .ok .ret
    else .error (.invalidOpcode opcode)
  else if opI opcode = 0x1 then .ok (.jump (opNNN opcode))
  else if opI opcode = 0x2 then .ok (.call (opNNN opcode))
  else if opI opcode = 0x3 then .ok (.skipEqualByte (opX opcode) (opNN opcode))
  else if opI opcode = 0x4 then .ok (.skipNotEqualByte (opX opcode) (opNN opcode))
  else if opI opcode = 0x5 then .ok (.skipEqualRegisters (opX opcode) (opY opcode))
  else if opI opcode = 0x6 then .ok (.loadByte (opX opcode) (opNN opcode))
  else if opI opcode = 0x7 then .ok (.addRegister (opX opcode) (opNN opcode))
  else if opI opcode = 0x8 then
    if opN opcode = 0x0 then .ok (.loadRegister (opX opcode) (opY opcode))
    else if opN opcode = 0x1 then .ok (.or (opX opcode) (opY opcode))
    else if opN opcode = 0x2 then .ok (.and (opX opcode) (opY opcode))
    else if opN opcode = 0x3 then .ok (.xor (opX opcode) (opY opcode))
    else if opN opcode = 0x4 then .ok (.add (opX opcode) (opY opcode))
    else if opN opcode = 0x5 then .ok (.subtract (opX opcode) (opY opcode))
    else if opN opcode = 0x6 then .ok (.shr (opX opcode) (opY opcode))
    else if opN opcode = 0x7 then .ok (.subtractRev (opX opcode) (opY opcode))
    else if opN opcode = 0xE then .ok (.shl (opX opcode) (opY opcode))
    else .error (.invalidOpcode opcode)
  else if opI opcode = 0x9 then .ok (.skipNotEqualRegisters (opX opcode) (opY opcode))
  else if opI opcode = 0xA then .ok (.loadI (opNNN opcode))
  else if opI opcode = 0xB then .ok (.jumpOffset (opX opcode) (opNNN opcode))
  else if opI opcode = 0xC then .ok (.random (opX opcode) (opNN opcode))
  else if opI opcode = 0xD then .ok (.draw (opX opcode) (opY opcode) (opN opcode))
  else if opI opcode = 0xE then
    if opNN opcode = 0x9E then .ok (.skipKeyPressed (opX opcode))
    else if opNN opcode = 0xA1 then .ok (.skipKeyReleased (opX opcode))
    else .error (.invalidOpcode opcode)
  else if opI opcode = 0xF then
    if opNN opcode = 0x07 then .ok (.loadDelayTimer (opX opcode))
    else if opNN opcode = 0x0A then .ok (.getKey (opX opcode))
    else if opNN opcode = 0x15 then .ok (.setDelayTimer (opX opcode))
    else if opNN opcode = 0x18 then .ok (.setSoundTimer (opX opcode))
    else if opNN opcode = 0x1E then .ok (.addI (opX opcode))
    else if opNN opcode = 0x29 then .ok (.loadFont (opX opcode))
    else if opNN opcode = 0x33 then .ok (.loadBcd (opX opcode))
    else if opNN opcode = 0x55 then .ok (.storeMemory (opX opcode))
    else if opNN opcode = 0x65 then .ok (.loadMemory (opX opcode))
    else .error (.invalidOpcode opcode)
  else .error (.invalidOpcode opcode)

/-- The opcodes on which the decoder of `src/chip8.rs` actually hits a
`panic!` arm: family `0x0` with an unknown low byte, family `0x8` with an
unassigned low nibble, and families `0xE`/`0xF` with an unknown low byte.
Families `0x5` and `0x9` accept every low nibble. -/
def invalidOpcodeCond (opcode : Nat) : Prop :=
  (opI opcode = 0x0 ∧ opNN opcode ≠ 0xE0 ∧ opNN opcode ≠ 0xEE) ∨
  (opI opcode = 0x8 ∧ opN opcode ≠ 0x0 ∧ opN opcode ≠ 0x1 ∧ opN opcode ≠ 0x2 ∧
    opN opcode ≠ 0x3 ∧ opN opcode ≠ 0x4 ∧ opN opcode ≠ 0x5 ∧ opN opcode ≠ 0x6 ∧
    opN opcode ≠ 0x7 ∧ opN opcode ≠ 0xE) ∨
  (opI opcode = 0xE ∧ opNN opcode ≠ 0x9E ∧ opNN opcode ≠ 0xA1) ∨
  (opI opcode = 0xF ∧ opNN opcode ≠ 0x07 ∧ opNN opcode ≠ 0x0A ∧ opNN opcode ≠ 0x15 ∧
    opNN opcode ≠ 0x18 ∧ opNN opcode ≠ 0x1E ∧ opNN opcode ≠ 0x29 ∧ opNN opcode ≠ 0x33 ∧
    opNN opcode ≠ 0x55 ∧ opNN opcode ≠ 0x65)

instance : DecidableEq (Except Chip8Error Instruction) := fun a b =>
  match a, b with
  | .ok x, .ok y => decidable_of_iff (x = y) (by simp)
  | .error x, .error y => decidable_of_iff (x = y) (by simp)
  | .ok _, .error _ => isFalse (by simp)
  | .error _, .ok _ => isFalse (by simp)

instance : DecidablePred invalidOpcodeCond := fun opcode => by
  unfold invalidOpcodeCond
  infer_instance

/-- The machine state of `struct Chip8` (\x7bwithout the audio handle, the
wall-clock pacing fields and the transient `current_instruction`, which the
embedding returns from `fetch` instead\x7d). -/
structure Chip8 where
  i : Nat
  pc : Nat
  sp : Nat
  keys : Nat → Bool
  stack : Nat → Nat
  memory : Nat → Nat
  display : Nat → Nat
  registers : Nat → Nat
  delay_timer : Nat
  sound_timer : Nat
  can_draw : Bool
  shift_quirk : Bool

/-- The `FONTS` table (80 bytes, sixteen 5-byte glyphs). -/
def FONTS : List Nat :=
  [0xF0, 0x90, 0x90, 0x90, 0xF0,
   0x20, 0x60, 0x20, 0x20, 0x70,
   0xF0, 0x10, 0xF0, 0x80, 0xF0,
   0xF0, 0x10, 0xF0, 0x10, 0xF0,
   0x90, 0x90, 0xF0, 0x10, 0x10,
   0xF0, 0x80, 0xF0, 0x10, 0xF0,
   0xF0, 0x80, 0xF0, 0x90, 0xF0,
   0xF0, 0x10, 0x20, 0x40, 0x40,
   0xF0, 0x90, 0xF0, 0x90, 0xF0,
   0xF0, 0x90, 0xF0, 0x10, 0xF0,
   0xF0, 0x90, 0xF0, 0x90, 0x90,
   0xE0, 0x90, 0xE0, 0x90, 0xE0,
   0xF0, 0x80, 0x80, 0x80, 0xF0,
   0xE0, 0x90, 0x90, 0x90, 0xE0,
   0xF0, 0x80, 0xF0, 0x80, 0xF0,
   0xF0, 0x80, 0xF0, 0x80, 0x80]

/-- Reset state built by `Chip8::new`: everything zeroed, `pc = 0x200`, the
font table copied to addresses `0..79`. -/
def Chip8.new : Chip8 where
  i := 0
  pc := 0x200
  sp := 0
  keys := fun _ => false
  stack := fun _ => 0
  memory := fun a => if a < 80 then FONTS.getD a 0 else 0
  display := fun _ => 0
  registers := fun _ => 0
  delay_timer := 0
  sound_timer := 0
  can_draw := false
  shift_quirk := false

/-- `Chip8::clear` (00E0). -/
def Chip8.clear (s : Chip8) : Chip8 :=
  { s with display := fun _ => 0 }

/-- `Chip8::jump` (1NNN). -/
def Chip8.jump (s : Chip8) (address : Nat) : Chip8 :=
  { s with pc := address }

/-- `Chip8::ret` (00EE).  With `sp = 0` the Rust code faults (`sp -= 1`
underflows and the subsequent stack index is out of range), modelled as
`stackUnderflow`. -/
def Chip8.ret (s : Chip8) : Except Chip8Error Chip8 :=
  if s.sp = 0 then .error .stackUnderflow
  else
    let sp := s.sp - 1
    let address := s.stack sp
    .ok (Chip8.jump { s with sp := sp } address)

/-- `Chip8::call` (2NNN).  With `sp ≥ 16` the Rust code faults
(`stack[sp]` is out of range), modelled as `stackOverflow`. -/
def Chip8.call (s : Chip8) (address : Nat) : Except Chip8Error Chip8 :=
  if 16 ≤ s.sp then .error .stackOverflow
  else
    .ok (Chip8.jump { s with stack := upd s.stack s.sp s.pc, sp := s.sp + 1 } address)

/-- `Chip8::skip_equal_byte` (3XNN). -/
def Chip8.skip_equal_byte (s : Chip8) (register_x value : Nat) : Chip8 :=
  if s.registers register_x = value then { s with pc := s.pc + 2 } else s

/-- `Chip8::skip_not_equal_byte` (4XNN). -/
def Chip8.skip_not_equal_byte (s : Chip8) (register_x value : Nat) : Chip8 :=
  if s.registers register_x ≠ value then { s with pc := s.pc + 2 } else s

/-- `Chip8::skip_equal_registers` (5XY0). -/
def Chip8.skip_equal_registers (s : Chip8) (register_x register_y : Nat) : Chip8 :=
  if s.registers register_x = s.registers register_y then { s with pc := s.pc + 2 } else s

/-- `Chip8::load_byte` (6XNN). -/
def Chip8.load_byte (s : Chip8) (register_x value : Nat) : Chip8 :=
  { s with registers := upd s.registers register_x value }

/-- `Chip8::add_register` (7XNN), wrapping 8-bit add. -/
def Chip8.add_register (s : Chip8) (register_x value : Nat) : Chip8 :=
  { s with registers := upd s.registers register_x ((s.registers register_x + value) % 256) }

/-- `Chip8::load_register` (8XY0). -/
def Chip8.load_register (s : Chip8) (register_x register_y : Nat) : Chip8 :=
  { s with registers := upd s.registers register_x (s.registers register_y) }

/-- `Chip8::or` (8XY1). -/
def Chip8.or (s : Chip8) (register_x register_y : Nat) : Chip8 :=
  { s with registers := upd s.registers register_x (s.registers register_x ||| s.registers register_y) }

/-- `Chip8::and` (8XY2). -/
def Chip8.and (s : Chip8) (register_x register_y : Nat) : Chip8 :=
  { s with registers := upd s.registers register_x (s.registers register_x &&& s.registers register_y) }

/-- `Chip8::xor` (8XY3). -/
def Chip8.xor (s : Chip8) (register_x register_y : Nat) : Chip8 :=
  { s with registers := upd s.registers register_x (s.registers register_x ^^^ s.registers register_y) }

/-- `Chip8::add` (8XY4): `overflowing_add`, then the carry into VF. -/
def Chip8.add (s : Chip8) (register_x register_y : Nat) : Chip8 :=
  let sum := (s.registers register_x + s.registers register_y) % 256
  let carry := 256 ≤ s.registers register_x + s.registers register_y
  let s1 := { s with registers := upd s.registers register_x sum }
  { s1 with registers := upd s1.registers 0xF (if carry then 1 else 0) }

/-- `Chip8::subtract` (8XY5): `overflowing_sub`, then `VF = borrow ? 0 : 1`.
The wrapped difference is `(Vx + 256 - Vy) % 256` for byte-valued inputs. -/
def Chip8.subtract (s : Chip8) (register_x register_y : Nat) : Chip8 :=
  let result := (s.registers register_x + 256 - s.registers register_y) % 256
  let borrow := s.registers register_x < s.registers register_y
  let s1 := { s with registers := upd s.registers register_x result }
  { s1 with registers := upd s1.registers 0xF (if borrow then 0 else 1) }

/-- `Chip8::shr` (8XY6): optional quirk copy of Vy, capture the low bit into
VF, then shift Vx right. -/
def Chip8.shr (s : Chip8) (register_x register_y : Nat) : Chip8 :=
  let s1 :=
    if s.shift_quirk then
      { s with registers := upd s.registers register_x (s.registers register_y) }
    else s
  let s2 := { s1 with registers := upd s1.registers 0xF (s1.registers register_x &&& 0x1) }
  { s2 with registers := upd s2.registers register_x (s2.registers register_x >>> 1) }

/-- `Chip8::subtract_rev` (8XY7). -/
def Chip8.subtract_rev (s : Chip8) (register_x register_y : Nat) : Chip8 :=
  let result := (s.registers register_y + 256 - s.registers register_x) % 256
  let borrow := s.registers register_y < s.registers register_x
  let s1 := { s with registers := upd s.registers register_x result }
  { s1 with registers := upd s1.registers 0xF (if borrow then 0 else 1) }

/-- `Chip8::shl` (8XYE): optional quirk copy, capture bit 7 into VF, then a
wrapping 8-bit left shift. -/
def Chip8.shl (s : Chip8) (register_x register_y : Nat) : Chip8 :=
  let s1 :=
    if s.shift_quirk then
      { s with registers := upd s.registers register_x (s.registers register_y) }
    else s
  let s2 := { s1 with registers := upd s1.registers 0xF (s1.registers register_x >>> 7 &&& 0x1) }
  { s2 with registers := upd s2.registers register_x (s2.registers register_x <<< 1 % 256) }

/-- `Chip8::skip_not_equal_registers` (9XY0). -/
def Chip8.skip_not_equal_registers (s : Chip8) (register_x register_y : Nat) : Chip8 :=
  if s.registers register_x ≠ s.registers register_y then { s with pc := s.pc + 2 } else s

/-- `Chip8::load_i` (ANNN). -/
def Chip8.load_i (s : Chip8) (address : Nat) : Chip8 :=
  { s with i := address }

/-- `Chip8::jump_offset` (BNNN). -/
def Chip8.jump_offset (s : Chip8) (register_x address : Nat) : Chip8 :=
  { s with pc := s.registers register_x + address }

/-- `Chip8::random` (CXNN); the host random byte is passed in explicitly. -/
def Chip8.random (s : Chip8) (register_x value randomByte : Nat) : Chip8 :=
  { s with registers := upd s.registers register_x (randomByte &&& value) }

/-- Sprite bit `c` (counting from the left) of a sprite row byte:
`(sprite_pixels >> (7 - sprite_x)) & 1`. -/
def spriteBit (pixels c : Nat) : Nat := pixels >>> (7 - c) &&& 1

/-- Inner column loop of `Chip8::draw`: iterate `sprite_x` upward while
`fuel` lasts, stopping early at the right display edge, XOR-compositing each
set sprite bit and latching the collision flag. -/
def drawColsAux (xCoord yOffset pixels : Nat) :
    Nat → Nat → (Nat → Nat) → Nat → ((Nat → Nat) × Nat)
  | 0, _, display, vf => (display, vf)
  | fuel + 1, sprite_x, display, vf =>
    let target_x := xCoord + sprite_x
    if 64 ≤ target_x then (display, vf)
    else
      let display_offset := yOffset + target_x
      if spriteBit pixels sprite_x = 1 then
        if display display_offset = 1 then
          drawColsAux xCoord yOffset pixels fuel (sprite_x + 1) (upd display display_offset 0) 1
        else
          drawColsAux xCoord yOffset pixels fuel (sprite_x + 1) (upd display display_offset 1) vf
      else
        drawColsAux xCoord yOffset pixels fuel (sprite_x + 1) display vf

/-- Outer row loop of `Chip8::draw`: iterate `sprite_y` upward while `fuel`
lasts, stopping early at the bottom display edge; each processed row fetches
its sprite byte from `memory[i + sprite_y]`, faulting when that index leaves
the 4096-byte memory. -/
def drawRowsAux (memory : Nat → Nat) (i xCoord yCoord : Nat) :
    Nat → Nat → (Nat → Nat) → Nat → Except Chip8Error ((Nat → Nat) × Nat)
  | 0, _, display, vf => .ok (display, vf)
  | fuel + 1, sprite_y, display, vf =>
    let target_y := yCoord + sprite_y
    if 32 ≤ target_y then .ok (display, vf)
    else if i + sprite_y < 4096 then
      let pixels := memory (i + sprite_y)
      let res := drawColsAux xCoord (target_y * 64) pixels 8 0 display vf
      drawRowsAux memory i xCoord yCoord fuel (sprite_y + 1) res.1 res.2
    else .error .memoryFault

/-- `Chip8::draw` (DXYN): wrap the start coordinates on entry, reset VF,
run the row/column loops, and set the dirty flag. -/
def Chip8.draw (s : Chip8) (x y n : Nat) : Except Chip8Error Chip8 :=
  let x_coord := s.registers x % 64
  let y_coord := s.registers y % 32
  match drawRowsAux s.memory s.i x_coord y_coord n 0 s.display 0 with
  | .ok res =>
    .ok { s with display := res.1, registers := upd s.registers 0xF res.2, can_draw := true }
  | .error e => .error e

/-- `Chip8::skip_key_pressed` (EX9E); `keys[Vx]` faults for `Vx ≥ 16`. -/
def Chip8.skip_key_pressed (s : Chip8) (register_x : Nat) : Except Chip8Error Chip8 :=
  let key := s.registers register_x
  if key < 16 then
    .ok (if s.keys key then { s with pc := s.pc + 2 } else s)
  else .error .keyFault

/-- `Chip8::skip_key_released` (EXA1). -/
def Chip8.skip_key_released (s : Chip8) (register_x : Nat) : Except Chip8Error Chip8 :=
  let key := s.registers register_x
  if key < 16 then
    .ok (if s.keys key then s else { s with pc := s.pc + 2 })
  else .error .keyFault

/-- `Chip8::load_delay_timer` (FX07). -/
def Chip8.load_delay_timer (s : Chip8) (register_x : Nat) : Chip8 :=
  { s with registers := upd s.registers register_x s.delay_timer }

/-- The `Iterator::position` scan over the 16-entry key array: the lowest
index `k` (starting from the given one) whose key is pressed. -/
def keyPosition (keys : Nat → Bool) : Nat → Nat → Option Nat
  | 0, _ => none
  | fuel + 1, k => if keys k then some k else keyPosition keys fuel (k + 1)

/-- `Chip8::get_key` (FX0A): latch the lowest-indexed pressed key into Vx,
or rewind the program counter by 2 when no key is pressed. -/
def Chip8.get_key (s : Chip8) (register_x : Nat) : Chip8 :=
  match keyPosition s.keys 16 0 with
  | some key => { s with registers := upd s.registers register_x key }
  | none => { s with pc := s.pc - 2 }

/-- `Chip8::set_delay_timer` (FX15). -/
def Chip8.set_delay_timer (s : Chip8) (register_x : Nat) : Chip8 :=
  { s with delay_timer := s.registers register_x }

/-- `Chip8::set_sound_timer` (FX18). -/
def Chip8.set_sound_timer (s : Chip8) (register_x : Nat) : Chip8 :=
  { s with sound_timer := s.registers register_x }

/-- `Chip8::add_i` (FX1E): 16-bit `overflowing_add`, carry into VF. -/
def Chip8.add_i (s : Chip8) (register_x : Nat) : Chip8 :=
  let result := (s.i + s.registers register_x) % 65536
  let carry := 65536 ≤ s.i + s.registers register_x
  { s with i := result, registers := upd s.registers 0xF (if carry then 1 else 0) }

/-- `Chip8::load_font` (FX29): `I = (character * 5) as u16`, where the
multiplication happens in `u8` and therefore wraps modulo 256. -/
def Chip8.load_font (s : Chip8) (register_x : Nat) : Chip8 :=
  let character := s.registers register_x
  { s with i := character * 5 % 256 }

/-- `Chip8::load_bcd` (FX33): the three decimal digits of Vx written to
`memory[I..I+2]`, faulting if any index leaves memory. -/
def Chip8.load_bcd (s : Chip8) (register_x : Nat) : Except Chip8Error Chip8 :=
  let v := s.registers register_x
  if s.i + 2 < 4096 then
    .ok { s with memory := upd (upd (upd s.memory s.i (v / 100)) (s.i + 1) (v % 100 / 10)) (s.i + 2) (v % 10) }
  else .error .memoryFault

/-- Loop of `Chip8::store_memory`: `memory[i + r] = registers r` for
`r = 0, 1, ...` while `fuel` lasts, faulting on an out-of-range index. -/
def storeMemoryAux (registers : Nat → Nat) (i : Nat) :
    Nat → Nat → (Nat → Nat) → Except Chip8Error (Nat → Nat)
  | 0, _, memory => .ok memory
  | fuel + 1, r, memory =>
    if i + r < 4096 then
      storeMemoryAux registers i fuel (r + 1) (upd memory (i + r) (registers r))
    else .error .memoryFault

/-- `Chip8::store_memory` (FX55): `for r in 0..=x: memory[I+r] = Vr`. -/
def Chip8.store_memory (s : Chip8) (register_x : Nat) : Except Chip8Error Chip8 :=
  match storeMemoryAux s.registers s.i (register_x + 1) 0 s.memory with
  | .ok memory => .ok { s with memory := memory }
  | .error e => .error e

/-- Loop of `Chip8::load_memory`: `registers r = memory (i + r)` for
`r = 0, 1, ...` while `fuel` lasts, faulting on an out-of-range index. -/
def loadMemoryAux (memory : Nat → Nat) (i : Nat) :
    Nat → Nat → (Nat → Nat) → Except Chip8Error (Nat → Nat)
  | 0, _, registers => .ok registers
  | fuel + 1, r, registers =>
    if i + r < 4096 then
      loadMemoryAux memory i fuel (r + 1) (upd registers r (memory (i + r)))
    else .error .memoryFault

/-- `Chip8::load_memory` (FX65): `for r in 0..=x: Vr = memory[I+r]`. -/
def Chip8.load_memory (s : Chip8) (register_x : Nat) : Except Chip8Error Chip8 :=
  match loadMemoryAux s.memory s.i (register_x + 1) 0 s.registers with
  | .ok registers => .ok { s with registers := registers }
  | .error e => .error e

/-- `Chip8::update_delay_timer`: decrement when positive, else leave at 0. -/
def Chip8.update_delay_timer (s : Chip8) : Chip8 :=
  if 0 < s.delay_timer then { s with delay_timer := s.delay_timer - 1 } else s

/-- `Chip8::fetch`: read the big-endian opcode at `pc`, advance `pc` by 2,
decode.  The embedding returns the decoded instruction instead of storing it
into `current_instruction`. -/
def Chip8.fetch (s : Chip8) : Except Chip8Error (Chip8 × Instruction) :=
  if s.pc + 1 < 4096 then
    let opcode := s.memory s.pc * 256 + s.memory (s.pc + 1)
    match Instruction.fromOpcode opcode with
    | .ok inst => .ok ({ s with pc := s.pc + 2 }, inst)
    | .error e => .error e
  else .error .memoryFault

/-- `Chip8::execute`: dispatch one decoded instruction. -/
def Chip8.execute (s : Chip8) (inst : Instruction) (randomByte : Nat) :
    Except Chip8Error Chip8 :=
  match inst with
  | .clear => .ok s.clear
  | .ret => s.ret
  | .jump address => .ok (s.jump address)
  | .call address => s.call address
  | .skipEqualByte x nn => .ok (s.skip_equal_byte x nn)
  | .skipNotEqualByte x nn => .ok (s.skip_not_equal_byte x nn)
  | .skipEqualRegisters x y => .ok (s.skip_equal_registers x y)
  | .loadByte x nn => .ok (s.load_byte x nn)
  | .addRegister x nn => .ok (s.add_register x nn)
  | .loadRegister x y => .ok (s.load_register x y)
  | .or x y => .ok (s.or x y)
  | .and x y => .ok (s.and x y)
  | .xor x y => .ok (s.xor x y)
  | .add x y => .ok (s.add x y)
  | .subtract x y => .ok (s.subtract x y)
  | .shr x y => .ok (s.shr x y)
  | .subtractRev x y => .ok (s.subtract_rev x y)
  | .shl x y => .ok (s.shl x y)
  | .skipNotEqualRegisters x y => .ok (s.skip_not_equal_registers x y)
  | .loadI nnn => .ok (s.load_i nnn)
  | .jumpOffset x nnn => .ok (s.jump_offset x nnn)
  | .random x nn => .ok (s.random x nn randomByte)
  | .draw x y n => s.draw x y n
  | .skipKeyPressed x => s.skip_key_pressed x
  | .skipKeyReleased x => s.skip_key_released x
  | .loadDelayTimer x => .ok (s.load_delay_timer x)
  | .getKey x => .ok (s.get_key x)
  | .setDelayTimer x => .ok (s.set_delay_timer x)
  | .setSoundTimer x => .ok (s.set_sound_timer x)
  | .addI x => .ok (s.add_i x)
  | .loadFont x => .ok (s.load_font x)
  | .loadBcd x => s.load_bcd x
  | .storeMemory x => s.store_memory x
  | .loadMemory x => s.load_memory x

/-- The fetch-decode-execute portion of `Chip8::cycle`. -/
def Chip8.step (s : Chip8) (randomByte : Nat) : Except Chip8Error Chip8 :=
  match s.fetch with
  | .ok res => res.1.execute res.2 randomByte
  | .error e => .error e

/-- `k` nested `call` instructions in sequence, with the `j`-th call
targeting `addrs j`. -/
def callN (addrs : Nat → Nat) : Nat → Chip8 → Except Chip8Error Chip8
  | 0, s => .ok s
  | k + 1, s =>
    match callN addrs k s with
    | .ok s2 => s2.call (addrs k)
    | .error e => .error e

/-- The register-ALU subset of the instruction set: the instructions whose
semantics only touch the general register file. -/
def isRegisterALU : Instruction → Prop
  | .loadByte _ _ => True
  | .addRegister _ _ => True
  | .loadRegister _ _ => True
  | .or _ _ => True
  | .and _ _ => True
  | .xor _ _ => True
  | .add _ _ => True
  | .subtract _ _ => True
  | .shr _ _ => True
  | .subtractRev _ _ => True
  | .shl _ _ => True
  | _ => False

/-- An all-zero machine state (program counter at the reset address) used to
build concrete test states. -/
def zeroState : Chip8 where
  i := 0
  pc := 0x200
  sp := 0
  keys := fun _ => false
  stack := fun _ => 0
  memory := fun _ => 0
  display := fun _ => 0
  registers := fun _ => 0
  delay_timer := 0
  sound_timer := 0
  can_draw := false
  shift_quirk := false

/-- Claim C1, counterexample: opcode `0x5001` (family `0x5`, low nibble 1)
does not fail to decode; `Instruction::from` ignores the low nibble of
family `0x5` and returns `SkipEqualRegisters(0, 0)`. -/
theorem c1_decode_counterexample :
    Instruction.fromOpcode 0x5001 = .ok (.skipEqualRegisters 0 0) ∧
    Instruction.fromOpcode 0x5001 ≠ .error (.invalidOpcode 0x5001) := by
  have h : Instruction.fromOpcode 0x5001 = .ok (.skipEqualRegisters 0 0) := rfl
  refine ⟨h, fun heq => ?_⟩
  rw [h] at heq
  exact Except.noConfusion heq

set_option maxHeartbeats 4000000 in
/-- Claim C1 (amended): decoding `0xD123` yields `Draw(1,2,3)`, `0x00E0`
yields `Clear`, `0x00EE` yields `Return`; family `0x5` decodes for every low
nibble, so `0x5001` yields `SkipEqualRegisters(0,0)`; and an opcode fails to
decode exactly when it hits one of the decoder's invalid arms
(`invalidOpcodeCond`), in which case the failure carries the offending
opcode and no instruction value is produced. -/
theorem c1_decode_families :
    Instruction.fromOpcode 0xD123 = .ok (.draw 1 2 3) ∧
    Instruction.fromOpcode 0x00E0 = .ok .clear ∧
    Instruction.fromOpcode 0x00EE = .ok .ret ∧
    Instruction.fromOpcode 0x5001 = .ok (.skipEqualRegisters 0 0) ∧
    ∀ opcode : Nat,
      (Instruction.fromOpcode opcode = .error (.invalidOpcode opcode) ↔
        invalidOpcodeCond opcode) ∧
      (¬ invalidOpcodeCond opcode → ∃ inst, Instruction.fromOpcode opcode = .ok inst) := by
  refine ⟨rfl, rfl, rfl, rfl, ?_⟩
  intro opcode
  constructor
  · unfold Instruction.fromOpcode invalidOpcodeCond
    have hi : opI opcode < 16 := Nat.mod_lt _ (by norm_num)
    revert hi
    generalize opI opcode = a
    generalize opNN opcode = b
    generalize opN opcode = c
    intro hi
    interval_cases a <;> simp_all <;> try (split_ifs <;> simp_all)
  · intro hinv
    unfold Instruction.fromOpcode
    unfold invalidOpcodeCond at hinv
    have hi : opI opcode < 16 := Nat.mod_lt _ (by norm_num)
    revert hi hinv
    generalize opI opcode = a
    generalize opNN opcode = b
    generalize opN opcode = c
    intro hinv hi
    interval_cases a <;> norm_num <;>
      first
        | exact ⟨_, rfl⟩
        | (split_ifs <;> first | exact ⟨_, rfl⟩ | omega)

/-- Claim C1 witness: the general characterization applied at the concrete
opcode `0x8008` (family `0x8`, unassigned low nibble `0x8`), which decodes
to an `InvalidOpcode` failure. -/
theorem c1_decode_families_witness :
    Instruction.fromOpcode 0x8008 = .error (.invalidOpcode 0x8008) := by
  exact (c1_decode_families.2.2.2.2 0x8008).1.mpr (by decide)

/-- Claim C3, counterexample: with `V0 = 52` the Rust code computes
`52 * 5` in `u8`, which wraps to 4, so `LoadFont` does not set `I` to
`52 * 5 = 260` as the claim demands for every 8-bit `Vx`. -/
theorem c3_load_font_counterexample :
    (Chip8.load_font { zeroState with registers := fun r => if r = 0 then 52 else 0 } 0).i = 4 ∧
    ({ zeroState with registers := fun r => if r = 0 then 52 else 0 } : Chip8).registers 0 * 5 = 260 ∧
    (Chip8.load_font { zeroState with registers := fun r => if r = 0 then 52 else 0 } 0).i ≠
      ({ zeroState with registers := fun r => if r = 0 then 52 else 0 } : Chip8).registers 0 * 5 := by
  refine ⟨rfl, rfl, ?_⟩
  decide

/-- Claim C3 (amended): `LoadFont(x)` sets `I` to `(Vx * 5) mod 256` (the
product is computed in `u8` and wraps); this agrees with `Vx * 5` exactly
when `Vx ≤ 51`, in particular for every font digit `0..0xF`; no other
machine state changes. -/
theorem c3_load_font :
    ∀ (s : Chip8) (x : Nat),
      (s.load_font x).i = s.registers x * 5 % 256 ∧
      (s.registers x ≤ 51 → (s.load_font x).i = s.registers x * 5) ∧
      (s.load_font x).pc = s.pc ∧
      (s.load_font x).sp = s.sp ∧
      (s.load_font x).keys = s.keys ∧
      (s.load_font x).stack = s.stack ∧
      (s.load_font x).memory = s.memory ∧
      (s.load_font x).display = s.display ∧
      (s.load_font x).registers = s.registers ∧
      (s.load_font x).delay_timer = s.delay_timer ∧
      (s.load_font x).sound_timer = s.sound_timer ∧
      (s.load_font x).can_draw = s.can_draw ∧
      (s.load_font x).shift_quirk = s.shift_quirk := by
  intro s x
  refine ⟨rfl, fun h => ?_, rfl, rfl, rfl, rfl, rfl, rfl, rfl, rfl, rfl, rfl, rfl⟩
  simp only [Chip8.load_font]
  exact Nat.mod_eq_of_lt (by omega)

/-- Claim C3 witness: the amended characterization applied at a state with
`V0 = 0xF`: `I` becomes `0xF * 5 = 75`. -/
theorem c3_load_font_witness :
    (Chip8.load_font { zeroState with registers := fun r => if r = 0 then 0xF else 0 } 0).i = 75 := by
  have h := (c3_load_font { zeroState with registers := fun r => if r = 0 then 0xF else 0 } 0).2.1
  simpa using h (by norm_num)

/-- Claim C6: `Add(x,y)` stores the wrapped 8-bit sum into `Vx`, then
overwrites `VF` with the carry flag (also when `x = 0xF`); all other
registers and every non-register component are untouched; and the two
concrete cases of the spec hold (`0xFF + 0x01` gives `Vx = 0, VF = 1`,
`0x01 + 0x01` gives `Vx = 2, VF = 0`). -/
theorem c6_add :
    (∀ (s : Chip8) (x y : Nat), s.registers x < 256 → s.registers y < 256 →
      ((s.add x y).registers 0xF = if 256 ≤ s.registers x + s.registers y then 1 else 0) ∧
      (x ≠ 0xF → (s.add x y).registers x = (s.registers x + s.registers y) % 256) ∧
      (∀ r, r ≠ x → r ≠ 0xF → (s.add x y).registers r = s.registers r) ∧
      (s.add x y).i = s.i ∧ (s.add x y).pc = s.pc ∧ (s.add x y).sp = s.sp ∧
      (s.add x y).keys = s.keys ∧ (s.add x y).stack = s.stack ∧
      (s.add x y).memory = s.memory ∧ (s.add x y).display = s.display ∧
      (s.add x y).delay_timer = s.delay_timer ∧ (s.add x y).sound_timer = s.sound_timer ∧
      (s.add x y).can_draw = s.can_draw ∧ (s.add x y).shift_quirk = s.shift_quirk) ∧
    ((Chip8.add { zeroState with registers := fun r => if r = 0 then 0xFF else if r = 1 then 0x01 else 0 } 0 1).registers 0 = 0x00 ∧
     (Chip8.add { zeroState with registers := fun r => if r = 0 then 0xFF else if r = 1 then 0x01 else 0 } 0 1).registers 0xF = 1) ∧
    ((Chip8.add { zeroState with registers := fun r => if r = 0 then 0x01 else if r = 1 then 0x01 else 0 } 0 1).registers 0 = 0x02 ∧
     (Chip8.add { zeroState with registers := fun r => if r = 0 then 0x01 else if r = 1 then 0x01 else 0 } 0 1).registers 0xF = 0) := by
  refine ⟨fun s x y hx hy => ?_, by constructor <;> rfl, by constructor <;> rfl⟩
  refine ⟨?_, fun hxF => ?_, fun r hrx hrF => ?_,
    rfl, rfl, rfl, rfl, rfl, rfl, rfl, rfl, rfl, rfl, rfl⟩
  · simp [Chip8.add, upd]
  · simp [Chip8.add, upd, hxF]
  · simp [Chip8.add, upd, hrx, hrF]

/-- Claim C6 witness: the general `Add` characterization applied at a
concrete state with `V0 = 0xFF`, `V1 = 1`: the carry flag is 1. -/
theorem c6_add_witness :
    (Chip8.add { zeroState with registers := fun r => if r = 0 then 0xFF else if r = 1 then 0x01 else 0 } 0 1).registers 0xF = 1 := by
  have h := (c6_add.1 { zeroState with registers := fun r => if r = 0 then 0xFF else if r = 1 then 0x01 else 0 } 0 1
    (by norm_num) (by norm_num)).1
  simpa using h

/-- Claim C7: `Shr(x,y)` with the quirk enabled first copies `Vy` into `Vx`,
then latches the pre-shift low bit into `VF` and shifts right; with the
quirk disabled `Vy` is ignored and `Vx`'s own low bit is latched.  When
`x = 0xF` the sequential writes leave `VF = 0`.  Other registers and all
non-register components are untouched, and the spec's two concrete shift
examples hold. -/
theorem c7_shr :
    (∀ (s : Chip8) (x y : Nat),
      (s.shift_quirk = false → x ≠ 0xF →
        (s.shr x y).registers x = s.registers x / 2 ∧
        (s.shr x y).registers 0xF = s.registers x % 2) ∧
      (s.shift_quirk = true → x ≠ 0xF →
        (s.shr x y).registers x = s.registers y / 2 ∧
        (s.shr x y).registers 0xF = s.registers y % 2) ∧
      (x = 0xF → (s.shr x y).registers 0xF = 0) ∧
      (∀ r, r ≠ x → r ≠ 0xF → (s.shr x y).registers r = s.registers r) ∧
      (s.shr x y).i = s.i ∧ (s.shr x y).pc = s.pc ∧ (s.shr x y).sp = s.sp ∧
      (s.shr x y).keys = s.keys ∧ (s.shr x y).stack = s.stack ∧
      (s.shr x y).memory = s.memory ∧ (s.shr x y).display = s.display ∧
      (s.shr x y).delay_timer = s.delay_timer ∧ (s.shr x y).sound_timer = s.sound_timer ∧
      (s.shr x y).can_draw = s.can_draw ∧ (s.shr x y).shift_quirk = s.shift_quirk) ∧
    ((Chip8.shr { zeroState with registers := fun r => if r = 2 then 3 else 0 } 2 3).registers 0xF = 1 ∧
     (Chip8.shr { zeroState with registers := fun r => if r = 2 then 3 else 0 } 2 3).registers 2 = 1) ∧
    ((Chip8.shr { zeroState with shift_quirk := true, registers := fun r => if r = 3 then 6 else 0 } 2 3).registers 0xF = 0 ∧
     (Chip8.shr { zeroState with shift_quirk := true, registers := fun r => if r = 3 then 6 else 0 } 2 3).registers 2 = 3) := by
  refine ⟨fun s x y => ?_, by constructor <;> rfl, by constructor <;> rfl⟩
  refine ⟨fun hq hxF => ?_, fun hq hxF => ?_, fun hxF => ?_, fun r hrx hrF => ?_, ?_, ?_, ?_, ?_, ?_, ?_, ?_, ?_, ?_, ?_, ?_⟩
  · constructor <;>
      simp [Chip8.shr, upd, hq, hxF, Nat.and_one_is_mod, Nat.shiftRight_eq_div_pow] <;>
      omega
  · constructor <;>
      simp [Chip8.shr, upd, hq, hxF, Nat.and_one_is_mod, Nat.shiftRight_eq_div_pow] <;>
      omega
  · cases hq : s.shift_quirk <;>
      simp [Chip8.shr, upd, hq, hxF, Nat.and_one_is_mod, Nat.shiftRight_eq_div_pow] <;>
      omega
  · cases hq : s.shift_quirk <;> simp [Chip8.shr, upd, hq, hrx, hrF]
  all_goals cases hq : s.shift_quirk <;> simp [Chip8.shr, hq]

/-- Claim C7 witness: the quirk-off characterization applied at a state with
`V2 = 3`: the captured low bit is 1 and `V2` becomes 1. -/
theorem c7_shr_witness :
    (Chip8.shr { zeroState with registers := fun r => if r = 2 then 3 else 0 } 2 3).registers 2 = 1 ∧
    (Chip8.shr { zeroState with registers := fun r => if r = 2 then 3 else 0 } 2 3).registers 0xF = 1 := by
  have h := (c7_shr.1 { zeroState with registers := fun r => if r = 2 then 3 else 0 } 2 3).1 rfl (by norm_num)
  simpa using h

/-- Iterating `update_delay_timer` keeps a zero delay timer at zero. -/
theorem update_delay_timer_iter_zero :
    ∀ (k : Nat) (s : Chip8), s.delay_timer = 0 →
      (Chip8.update_delay_timer^[k] s).delay_timer = 0 := by
  intro k
  induction k with
  | zero => intro s h; simpa using h
  | succ k ih =>
    intro s h
    rw [Function.iterate_succ_apply]
    exact ih _ (by simp [Chip8.update_delay_timer, h])

/-- Claim C9: one delay-timer tick decrements a positive timer by 1 and
leaves a zero timer at zero (so the timer is non-increasing and never
wraps below zero); starting from `delay_timer = 2`, after any `m ≥ 2` ticks
the timer is 0 and stays 0. -/
theorem c9_delay_timer :
    (∀ s : Chip8, 0 < s.delay_timer →
      (s.update_delay_timer).delay_timer = s.delay_timer - 1) ∧
    (∀ s : Chip8, s.delay_timer = 0 → s.update_delay_timer = s) ∧
    (∀ s : Chip8, (s.update_delay_timer).delay_timer ≤ s.delay_timer) ∧
    (∀ s : Chip8, s.delay_timer = 2 → ∀ m : Nat, 2 ≤ m →
      (Chip8.update_delay_timer^[m] s).delay_timer = 0) := by
  refine ⟨fun s h => by simp [Chip8.update_delay_timer, h], fun s h => by simp [Chip8.update_delay_timer, h],
    fun s => ?_, fun s h m hm => ?_⟩
  · unfold Chip8.update_delay_timer
    split_ifs <;> simp [Nat.sub_le]
  · have hsplit : m = (m - 2) + 2 := by omega
    rw [hsplit, Function.iterate_add_apply]
    apply update_delay_timer_iter_zero
    obtain ⟨t, ht⟩ : ∃ t, s.update_delay_timer = t := ⟨_, rfl⟩
    have h1 : t.delay_timer = 1 := by
      rw [← ht]
      simp [Chip8.update_delay_timer, h]
    rw [show Chip8.update_delay_timer^[2] s =
        Chip8.update_delay_timer s.update_delay_timer from rfl, ht]
    simp [Chip8.update_delay_timer, h1]

/-- Claim C9 witness: starting from `delay_timer = 2`, five ticks leave the
timer at zero. -/
theorem c9_delay_timer_witness :
    (Chip8.update_delay_timer^[5] { zeroState with delay_timer := 2 }).delay_timer = 0 :=
  c9_delay_timer.2.2.2 { zeroState with delay_timer := 2 } rfl 5 (by norm_num)

/-- `k ≤ 16` nested calls from a state with `sp + k ≤ 16` succeed and raise
the stack pointer by `k`. -/
theorem callN_ok_sp :
    ∀ (addrs : Nat → Nat) (k : Nat) (s : Chip8), s.sp + k ≤ 16 →
      ∃ s2, callN addrs k s = .ok s2 ∧ s2.sp = s.sp + k := by
  intro addrs k
  induction k with
  | zero => exact fun s _ => ⟨s, rfl, rfl⟩
  | succ k ih =>
    intro s hk
    obtain ⟨s2, h2, hsp⟩ := ih s (by omega)
    have hcall : s2.call (addrs k) =
        .ok (Chip8.jump { s2 with stack := upd s2.stack s2.sp s2.pc, sp := s2.sp + 1 } (addrs k)) := by
      unfold Chip8.call
      rw [if_neg (by omega)]
    refine ⟨Chip8.jump { s2 with stack := upd s2.stack s2.sp s2.pc, sp := s2.sp + 1 } (addrs k),
      ?_, ?_⟩
    · show (match callN addrs k s with
        | .ok s2 => s2.call (addrs k)
        | .error e => .error e) = _
      rw [h2]
      show s2.call (addrs k) = _
      rw [hcall]
    · simp [Chip8.jump]
      omega

/-- Claim C2: from the reset state every sequence of 16 nested calls
succeeds and leaves `SP = 16`; a 17th call fails with `stackOverflow`
(returning an error and no successor state, so nothing is corrupted), and a
return with `SP = 0` fails with `stackUnderflow`. -/
theorem c2_stack :
    (∀ addrs : Nat → Nat,
      ∃ s16, callN addrs 16 Chip8.new = .ok s16 ∧ s16.sp = 16 ∧
        (∀ address, s16.call address = .error .stackOverflow) ∧
        callN addrs 17 Chip8.new = .error .stackOverflow) ∧
    (∀ s : Chip8, s.sp = 0 → s.ret = .error .stackUnderflow) := by
  constructor
  · intro addrs
    obtain ⟨s16, h16, hsp⟩ := callN_ok_sp addrs 16 Chip8.new (by simp [Chip8.new])
    have hover : ∀ address, s16.call address = .error .stackOverflow := by
      intro address
      unfold Chip8.call
      rw [if_pos (by omega)]
    refine ⟨s16, h16, by simpa [Chip8.new] using hsp, hover, ?_⟩
    show (match callN addrs 16 Chip8.new with
      | .ok s2 => s2.call (addrs 16)
      | .error e => .error e) = _
    rw [h16]
    exact hover (addrs 16)
  · intro s h
    unfold Chip8.ret
    rw [if_pos h]

/-- Claim C2 witness: a return from the reset state (whose `SP` is 0) fails
with `stackUnderflow`. -/
theorem c2_stack_witness : Chip8.new.ret = .error .stackUnderflow :=
  c2_stack.2 Chip8.new rfl

/-- Claim C10: every register-ALU instruction executes successfully and
modifies only the general register file: the index register, program
counter, stack pointer, key latch, stack, memory, display buffer, both
timers, the dirty/draw flag and the quirk flag are all unchanged. -/
theorem c10_alu_frame :
    ∀ (s : Chip8) (inst : Instruction) (randomByte : Nat),
      isRegisterALU inst →
      ∃ s2, s.execute inst randomByte = .ok s2 ∧ s2.i = s.i ∧ s2.pc = s.pc ∧ s2.sp = s.sp ∧
        s2.keys = s.keys ∧ s2.stack = s.stack ∧ s2.memory = s.memory ∧ s2.display = s.display ∧
        s2.delay_timer = s.delay_timer ∧ s2.sound_timer = s.sound_timer ∧
        s2.can_draw = s.can_draw ∧ s2.shift_quirk = s.shift_quirk := by
  intro s inst randomByte h
  cases inst <;> first
    | exact h.elim
    | exact ⟨_, rfl, rfl, rfl, rfl, rfl, rfl, rfl, rfl, rfl, rfl, rfl, rfl⟩
    | (refine ⟨_, rfl, ?_, ?_, ?_, ?_, ?_, ?_, ?_, ?_, ?_, ?_, ?_⟩ <;>
        (cases hq : s.shift_quirk <;> simp [Chip8.shr, Chip8.shl, hq]))

/-- Claim C10 witness: the frame property applied to a concrete `Add`
instruction at the all-zero state. -/
theorem c10_alu_frame_witness :
    ∃ s2, Chip8.execute zeroState (.add 0 1) 0 = .ok s2 ∧ s2.i = zeroState.i ∧
      s2.pc = zeroState.pc ∧ s2.sp = zeroState.sp ∧ s2.keys = zeroState.keys ∧
      s2.stack = zeroState.stack ∧ s2.memory = zeroState.memory ∧
      s2.display = zeroState.display ∧ s2.delay_timer = zeroState.delay_timer ∧
      s2.sound_timer = zeroState.sound_timer ∧ s2.can_draw = zeroState.can_draw ∧
      s2.shift_quirk = zeroState.shift_quirk :=
  c10_alu_frame zeroState (.add 0 1) 0 trivial

/-- If no key in the scanned window is pressed, the `position` scan finds
nothing. -/
theorem keyPosition_eq_none :
    ∀ (keys : Nat → Bool) (fuel k : Nat),
      (∀ j, k ≤ j → j < k + fuel → keys j = false) →
      keyPosition keys fuel k = none := by
  intro keys fuel
  induction fuel with
  | zero => intro k _; rfl
  | succ fuel ih =>
    intro k h
    have hk : keys k = false := h k (Nat.le_refl k) (by omega)
    show (if keys k then some k else keyPosition keys fuel (k + 1)) = none
    rw [hk]
    simpa using ih (k + 1) (fun j hj1 hj2 => h j (by omega) (by omega))

/-- If some key in the scanned window is pressed, the `position` scan finds
the lowest-indexed pressed key. -/
theorem keyPosition_eq_some :
    ∀ (keys : Nat → Bool) (fuel k j0 : Nat),
      k ≤ j0 → j0 < k + fuel → keys j0 = true →
      ∃ m, keyPosition keys fuel k = some m ∧ k ≤ m ∧ m < k + fuel ∧ keys m = true ∧
        (∀ j, k ≤ j → j < m → keys j = false) := by
  intro keys fuel
  induction fuel with
  | zero => intro k j0 h1 h2 _; omega
  | succ fuel ih =>
    intro k j0 h1 h2 hj0
    cases hk : keys k with
    | true =>
      refine ⟨k, ?_, Nat.le_refl k, by omega, hk, fun j hj1 hj2 => absurd hj1 (by omega)⟩
      show (if keys k then some k else keyPosition keys fuel (k + 1)) = some k
      rw [hk]
      rfl
    | false =>
      have hne : j0 ≠ k := fun hEq => by rw [hEq, hk] at hj0; exact Bool.noConfusion hj0
      obtain ⟨m, hm, hm1, hm2, hm3, hm4⟩ := ih (k + 1) j0 (by omega) (by omega) hj0
      refine ⟨m, ?_, by omega, by omega, hm3, fun j hj1 hj2 => ?_⟩
      · show (if keys k then some k else keyPosition keys fuel (k + 1)) = some m
        rw [hk]
        simpa using hm
      · rcases Nat.eq_or_lt_of_le hj1 with hEq | hlt
        · rw [← hEq]; exact hk
        · exact hm4 j hlt hj2

/-- Claim C5: a fetch-decode-execute step on a `GetKey(x)` opcode
(`0xFX0A` stored big-endian at `pc`): with no key pressed, the `pc -= 2`
rewind cancels the fetch advance and the whole state is unchanged (so the
same instruction is re-decoded next cycle and `Vx` is untouched); with at
least one key pressed, the lowest-indexed pressed key is latched into `Vx`
and `pc` advances by exactly 2. -/
theorem c5_get_key_cycle :
    ∀ (s : Chip8) (x : Nat),
      x < 16 →
      s.pc + 1 < 4096 →
      s.memory s.pc = 0xF0 + x →
      s.memory (s.pc + 1) = 0x0A →
      ((∀ k, k < 16 → s.keys k = false) → s.step 0 = .ok s) ∧
      ((∃ k, k < 16 ∧ s.keys k = true) →
        ∃ m, m < 16 ∧ s.keys m = true ∧ (∀ j, j < m → s.keys j = false) ∧
          s.step 0 = .ok { s with pc := s.pc + 2, registers := upd s.registers x m }) := by
  intro s x hx hpc h1 h2
  have hdec : Instruction.fromOpcode ((0xF0 + x) * 256 + 0x0A) = .ok (.getKey x) := by
    have hI : opI ((0xF0 + x) * 256 + 0x0A) = 0xF := by unfold opI; omega
    have hNN : opNN ((0xF0 + x) * 256 + 0x0A) = 0x0A := by unfold opNN; omega
    have hX : opX ((0xF0 + x) * 256 + 0x0A) = x := by unfold opX; omega
    unfold Instruction.fromOpcode
    rw [hI, hNN, hX]
    norm_num
  have hfetch : s.fetch = .ok ({ s with pc := s.pc + 2 }, .getKey x) := by
    unfold Chip8.fetch
    rw [if_pos hpc]
    simp only [h1, h2, hdec]
  have hstep : s.step 0 = .ok (Chip8.get_key { s with pc := s.pc + 2 } x) := by
    unfold Chip8.step
    rw [hfetch]
    rfl
  constructor
  · intro hnone
    have hkp : keyPosition s.keys 16 0 = none :=
      keyPosition_eq_none s.keys 16 0 (fun j _ hj2 => hnone j (by omega))
    rw [hstep]
    simp [Chip8.get_key, hkp]
  · intro hsome
    obtain ⟨k0, hk0, hk0t⟩ := hsome
    obtain ⟨m, hm, _, hmlt, hmkeys, hmmin⟩ :=
      keyPosition_eq_some s.keys 16 0 k0 (by omega) (by omega) hk0t
    refine ⟨m, by omega, hmkeys, fun j hj => hmmin j (by omega) hj, ?_⟩
    rw [hstep]
    simp [Chip8.get_key, hm]

/-- Claim C5 witness: a concrete state whose program memory holds `0xF00A`
at the reset `pc` and with no key pressed steps to exactly itself. -/
theorem c5_get_key_cycle_witness :
    Chip8.step { zeroState with memory := fun a => if a = 0x200 then 0xF0 else if a = 0x201 then 0x0A else 0 } 0 =
      .ok { zeroState with memory := fun a => if a = 0x200 then 0xF0 else if a = 0x201 then 0x0A else 0 } := by
  have h := (c5_get_key_cycle
    { zeroState with memory := fun a => if a = 0x200 then 0xF0 else if a = 0x201 then 0x0A else 0 } 0
    (by decide) (by decide) (by decide) (by decide)).1 (fun k _ => rfl)
  simpa using h

/-- Characterization of the `store_memory` loop: with all written addresses
in bounds it succeeds, writes `registers j` to address `i + j` for every
loop index `j`, and leaves every other address untouched. -/
theorem storeMemoryAux_ok :
    ∀ (registers : Nat → Nat) (i fuel r : Nat) (memory : Nat → Nat),
      (∀ j, r ≤ j → j < r + fuel → i + j < 4096) →
      ∃ m2, storeMemoryAux registers i fuel r memory = .ok m2 ∧
        (∀ j, r ≤ j → j < r + fuel → m2 (i + j) = registers j) ∧
        (∀ a, (∀ j, r ≤ j → j < r + fuel → a ≠ i + j) → m2 a = memory a) := by
  intro registers i fuel
  induction fuel with
  | zero =>
    intro r memory _
    exact ⟨memory, rfl, fun j hj1 hj2 => by omega, fun a _ => rfl⟩
  | succ fuel ih =>
    intro r memory h
    have hb : i + r < 4096 := h r (Nat.le_refl r) (by omega)
    obtain ⟨m2, hm2, htouch, hkeep⟩ :=
      ih (r + 1) (upd memory (i + r) (registers r)) (fun j hj1 hj2 => h j (by omega) (by omega))
    refine ⟨m2, ?_, ?_, ?_⟩
    · show (if i + r < 4096 then
          storeMemoryAux registers i fuel (r + 1) (upd memory (i + r) (registers r))
        else .error .memoryFault) = .ok m2
      rw [if_pos hb]
      exact hm2
    · intro j hj1 hj2
      rcases Nat.eq_or_lt_of_le hj1 with hEq | hlt
      · have hjr : j = r := by omega
        rw [hjr, hkeep (i + r) (fun j2 hj3 hj4 => by omega)]
        simp [upd]
      · exact htouch j hlt (by omega)
    · intro a ha
      rw [hkeep a (fun j hj1 hj2 => ha j (by omega) (by omega))]
      simp [upd, ha r (Nat.le_refl r) (by omega)]

/-- Characterization of the `load_memory` loop: with all read addresses in
bounds it succeeds, loads `memory (i + j)` into register `j` for every loop
index `j`, and leaves every other register untouched. -/
theorem loadMemoryAux_ok :
    ∀ (memory : Nat → Nat) (i fuel r : Nat) (registers : Nat → Nat),
      (∀ j, r ≤ j → j < r + fuel → i + j < 4096) →
      ∃ rg2, loadMemoryAux memory i fuel r registers = .ok rg2 ∧
        (∀ j, r ≤ j → j < r + fuel → rg2 j = memory (i + j)) ∧
        (∀ a, (a < r ∨ r + fuel ≤ a) → rg2 a = registers a) := by
  intro memory i fuel
  induction fuel with
  | zero =>
    intro r registers _
    exact ⟨registers, rfl, fun j hj1 hj2 => by omega, fun a _ => rfl⟩
  | succ fuel ih =>
    intro r registers h
    have hb : i + r < 4096 := h r (Nat.le_refl r) (by omega)
    obtain ⟨rg2, hrg2, htouch, hkeep⟩ :=
      ih (r + 1) (upd registers r (memory (i + r))) (fun j hj1 hj2 => h j (by omega) (by omega))
    refine ⟨rg2, ?_, ?_, ?_⟩
    · show (if i + r < 4096 then
          loadMemoryAux memory i fuel (r + 1) (upd registers r (memory (i + r)))
        else .error .memoryFault) = .ok rg2
      rw [if_pos hb]
      exact hrg2
    · intro j hj1 hj2
      rcases Nat.eq_or_lt_of_le hj1 with hEq | hlt
      · have hjr : j = r := by omega
        rw [hjr, hkeep r (by omega)]
        simp [upd]
      · exact htouch j hlt (by omega)
    · intro a ha
      rw [hkeep a (by omega)]
      simp [upd, show a ≠ r by omega]

/-- Claim C8: for every `x ≤ 15` and `I` with `I + x` in memory bounds,
`StoreMemory(x)` succeeds without touching the registers; overwriting the
whole register file with an arbitrary `g` and then running `LoadMemory(x)`
at the same `I` restores `V0..Vx` exactly and leaves the registers above
`x` at their overwritten values; the spec's concrete `{1,2,3,4}` round trip
at `I = 0x300` holds. -/
theorem c8_store_load_roundtrip :
    (∀ (s : Chip8) (x : Nat) (g : Nat → Nat), x < 16 → s.i + x < 4096 →
      ∃ s1, s.store_memory x = .ok s1 ∧ s1.i = s.i ∧ s1.registers = s.registers ∧
        ∃ s2, Chip8.load_memory { s1 with registers := g } x = .ok s2 ∧
          (∀ r, r ≤ x → s2.registers r = s.registers r) ∧
          (∀ r, x < r → s2.registers r = g r)) ∧
    (∃ s1, Chip8.store_memory { zeroState with i := 0x300, registers := fun r => if r = 0 then 1 else if r = 1 then 2 else if r = 2 then 3 else if r = 3 then 4 else 0 } 3 = .ok s1 ∧
      ∃ s2, Chip8.load_memory { s1 with registers := fun _ => 0 } 3 = .ok s2 ∧
        s2.registers 0 = 1 ∧ s2.registers 1 = 2 ∧ s2.registers 2 = 3 ∧ s2.registers 3 = 4) := by
  have main : ∀ (s : Chip8) (x : Nat) (g : Nat → Nat), x < 16 → s.i + x < 4096 →
      ∃ s1, s.store_memory x = .ok s1 ∧ s1.i = s.i ∧ s1.registers = s.registers ∧
        ∃ s2, Chip8.load_memory { s1 with registers := g } x = .ok s2 ∧
          (∀ r, r ≤ x → s2.registers r = s.registers r) ∧
          (∀ r, x < r → s2.registers r = g r) := by
    intro s x g hx hb
    obtain ⟨m2, hm2, htouch, hkeep⟩ :=
      storeMemoryAux_ok s.registers s.i (x + 1) 0 s.memory (fun j _ hj2 => by omega)
    have hstore : s.store_memory x = .ok { s with memory := m2 } := by
      unfold Chip8.store_memory
      rw [hm2]
    refine ⟨_, hstore, rfl, rfl, ?_⟩
    obtain ⟨rg2, hrg2, hrt, hrk⟩ :=
      loadMemoryAux_ok m2 s.i (x + 1) 0 g (fun j _ hj2 => by omega)
    have hload : Chip8.load_memory { { s with memory := m2 } with registers := g } x =
        .ok { { s with memory := m2 } with registers := rg2 } := by
      unfold Chip8.load_memory
      simp only [hrg2]
    refine ⟨_, hload, fun r hr => ?_, fun r hr => ?_⟩
    · show rg2 r = s.registers r
      rw [hrt r (by omega) (by omega)]
      exact htouch r (by omega) (by omega)
    · show rg2 r = g r
      exact hrk r (by omega)
  refine ⟨main, ?_⟩
  obtain ⟨s1, h1, _, _, s2, h2, hres, _⟩ := main
    { zeroState with i := 0x300, registers := fun r => if r = 0 then 1 else if r = 1 then 2 else if r = 2 then 3 else if r = 3 then 4 else 0 }
    3 (fun _ => 0) (by norm_num) (by decide)
  refine ⟨s1, h1, s2, h2, ?_, ?_, ?_, ?_⟩ <;>
    first
      | exact (hres 0 (by norm_num)).trans (by decide)
      | exact (hres 1 (by norm_num)).trans (by decide)
      | exact (hres 2 (by norm_num)).trans (by decide)
      | exact (hres 3 (by norm_num)).trans (by decide)

/-- Claim C8 witness: the round-trip property applied at the all-zero state
with `x = 0` and overwrite function constantly 7: `V0` is restored to 0. -/
theorem c8_store_load_roundtrip_witness :
    ∃ s1, Chip8.store_memory zeroState 0 = .ok s1 ∧ s1.i = zeroState.i ∧
      s1.registers = zeroState.registers ∧
      ∃ s2, Chip8.load_memory { s1 with registers := fun _ => 7 } 0 = .ok s2 ∧
        (∀ r, r ≤ 0 → s2.registers r = zeroState.registers r) ∧
        (∀ r, 0 < r → s2.registers r = 7) :=
  c8_store_load_roundtrip.1 zeroState 0 (fun _ => 7) (by norm_num) (by decide)

/-- Characterization of the inner column loop of `draw`: columns clipped at
the right edge are untouched; every drawn column is XOR-composited against
the incoming display; and the collision output is 1 exactly when it came in
as 1 or some drawn sprite bit hit a set display cell. -/
theorem drawColsAux_char :
    ∀ (xCoord yOffset pixels fuel sprite_x : Nat) (display : Nat → Nat) (vf : Nat),
      (∀ a, (∀ c, sprite_x ≤ c → c < sprite_x + fuel → xCoord + c < 64 →
          a ≠ yOffset + (xCoord + c)) →
        (drawColsAux xCoord yOffset pixels fuel sprite_x display vf).1 a = display a) ∧
      (∀ c, sprite_x ≤ c → c < sprite_x + fuel → xCoord + c < 64 →
        (drawColsAux xCoord yOffset pixels fuel sprite_x display vf).1 (yOffset + (xCoord + c)) =
          (if spriteBit pixels c = 1 then
            (if display (yOffset + (xCoord + c)) = 1 then 0 else 1)
          else display (yOffset + (xCoord + c)))) ∧
      ((drawColsAux xCoord yOffset pixels fuel sprite_x display vf).2 = 1 ↔
        (vf = 1 ∨ ∃ c, sprite_x ≤ c ∧ c < sprite_x + fuel ∧ xCoord + c < 64 ∧
          spriteBit pixels c = 1 ∧ display (yOffset + (xCoord + c)) = 1)) ∧
      ((drawColsAux xCoord yOffset pixels fuel sprite_x display vf).2 = vf ∨
        (drawColsAux xCoord yOffset pixels fuel sprite_x display vf).2 = 1) := by
  intro xCoord yOffset pixels fuel
  induction fuel with
  | zero =>
    intro sprite_x display vf
    refine ⟨fun a _ => rfl, fun c hc1 hc2 _ => by omega, ?_, Or.inl rfl⟩
    constructor
    · exact fun h => Or.inl h
    · rintro (h | ⟨c, hc1, hc2, _⟩)
      · exact h
      · omega
  | succ fuel ih =>
    intro sprite_x display vf
    by_cases h64 : 64 ≤ xCoord + sprite_x
    · have heq : drawColsAux xCoord yOffset pixels (fuel + 1) sprite_x display vf =
          (display, vf) := by
        simp only [drawColsAux]
        rw [if_pos h64]
      rw [heq]
      refine ⟨fun a _ => rfl, fun c hc1 hc2 hc3 => by omega, ?_, Or.inl rfl⟩
      constructor
      · exact fun h => Or.inl h
      · rintro (h | ⟨c, hc1, hc2, hc3, _⟩)
        · exact h
        · omega
    · by_cases hbit : spriteBit pixels sprite_x = 1
      · by_cases hdisp : display (yOffset + (xCoord + sprite_x)) = 1
        · -- collision branch: pixel cleared, vf latched to 1
          have heq : drawColsAux xCoord yOffset pixels (fuel + 1) sprite_x display vf =
              drawColsAux xCoord yOffset pixels fuel (sprite_x + 1)
                (upd display (yOffset + (xCoord + sprite_x)) 0) 1 := by
            simp only [drawColsAux]
            rw [if_neg h64, if_pos hbit, if_pos hdisp]
          obtain ⟨IH1, IH2, IH3, IH4⟩ :=
            ih (sprite_x + 1) (upd display (yOffset + (xCoord + sprite_x)) 0) 1
          rw [heq]
          refine ⟨?_, ?_, ?_, ?_⟩
          · intro a ha
            rw [IH1 a (fun c hc1 hc2 hc3 => ha c (by omega) (by omega) hc3)]
            simp [upd, ha sprite_x (Nat.le_refl _) (by omega) (by omega)]
          · intro c hc1 hc2 hc3
            rcases Nat.eq_or_lt_of_le hc1 with hEq | hlt
            · have hcs : c = sprite_x := by omega
              rw [hcs]
              rw [IH1 (yOffset + (xCoord + sprite_x)) (fun c2 hc4 hc5 hc6 => by omega)]
              rw [hbit, hdisp]
              simp [upd]
            · rw [IH2 c hlt (by omega) hc3]
              simp [upd, show yOffset + (xCoord + c) ≠ yOffset + (xCoord + sprite_x) by omega]
          · rw [IH3]
            constructor
            · intro _
              exact Or.inr ⟨sprite_x, Nat.le_refl _, by omega, by omega, hbit, hdisp⟩
            · intro _
              exact Or.inl rfl
          · rcases IH4 with h | h
            · exact Or.inr h
            · exact Or.inr h
        · -- pixel set branch (no collision at this column)
          have heq : drawColsAux xCoord yOffset pixels (fuel + 1) sprite_x display vf =
              drawColsAux xCoord yOffset pixels fuel (sprite_x + 1)
                (upd display (yOffset + (xCoord + sprite_x)) 1) vf := by
            simp only [drawColsAux]
            rw [if_neg h64, if_pos hbit, if_neg hdisp]
          obtain ⟨IH1, IH2, IH3, IH4⟩ :=
            ih (sprite_x + 1) (upd display (yOffset + (xCoord + sprite_x)) 1) vf
          rw [heq]
          refine ⟨?_, ?_, ?_, IH4⟩
          · intro a ha
            rw [IH1 a (fun c hc1 hc2 hc3 => ha c (by omega) (by omega) hc3)]
            simp [upd, ha sprite_x (Nat.le_refl _) (by omega) (by omega)]
          · intro c hc1 hc2 hc3
            rcases Nat.eq_or_lt_of_le hc1 with hEq | hlt
            · have hcs : c = sprite_x := by omega
              rw [hcs]
              rw [IH1 (yOffset + (xCoord + sprite_x)) (fun c2 hc4 hc5 hc6 => by omega)]
              rw [hbit]
              rw [if_neg hdisp]
              simp [upd]
            · rw [IH2 c hlt (by omega) hc3]
              simp [upd, show yOffset + (xCoord + c) ≠ yOffset + (xCoord + sprite_x) by omega]
          · rw [IH3]
            constructor
            · rintro (h | ⟨c, hc1, hc2, hc3, hc4, hc5⟩)
              · exact Or.inl h
              · refine Or.inr ⟨c, by omega, by omega, hc3, hc4, ?_⟩
                rw [← hc5]
                simp [upd, show yOffset + (xCoord + c) ≠ yOffset + (xCoord + sprite_x) by omega]
            · rintro (h | ⟨c, hc1, hc2, hc3, hc4, hc5⟩)
              · exact Or.inl h
              · rcases Nat.eq_or_lt_of_le hc1 with hEq | hlt
                · exfalso
                  apply hdisp
                  rw [show sprite_x = c by omega]
                  exact hc5
                · refine Or.inr ⟨c, hlt, by omega, hc3, hc4, ?_⟩
                  rw [← hc5]
                  simp [upd, show yOffset + (xCoord + c) ≠ yOffset + (xCoord + sprite_x) by omega]
      · -- sprite bit clear: nothing drawn at this column
        have heq : drawColsAux xCoord yOffset pixels (fuel + 1) sprite_x display vf =
            drawColsAux xCoord yOffset pixels fuel (sprite_x + 1) display vf := by
          simp only [drawColsAux]
          rw [if_neg h64, if_neg hbit]
        obtain ⟨IH1, IH2, IH3, IH4⟩ := ih (sprite_x + 1) display vf
        rw [heq]
        refine ⟨?_, ?_, ?_, IH4⟩
        · intro a ha
          exact IH1 a (fun c hc1 hc2 hc3 => ha c (by omega) (by omega) hc3)
        · intro c hc1 hc2 hc3
          rcases Nat.eq_or_lt_of_le hc1 with hEq | hlt
          · have hcs : c = sprite_x := by omega
            rw [hcs]
            rw [IH1 (yOffset + (xCoord + sprite_x)) (fun c2 hc4 hc5 hc6 => by omega)]
            rw [if_neg hbit]
          · exact IH2 c hlt (by omega) hc3
        · rw [IH3]
          constructor
          · rintro (h | ⟨c, hc1, hc2, hc3, hc4, hc5⟩)
            · exact Or.inl h
            · exact Or.inr ⟨c, by omega, by omega, hc3, hc4, hc5⟩
          · rintro (h | ⟨c, hc1, hc2, hc3, hc4, hc5⟩)
            · exact Or.inl h
            · rcases Nat.eq_or_lt_of_le hc1 with hEq | hlt
              · exfalso
                apply hbit
                rw [show sprite_x = c by omega]
                exact hc4
              · exact Or.inr ⟨c, hlt, by omega, hc3, hc4, hc5⟩

/-- Characterization of the outer row loop of `draw`: with every fetched
sprite address in bounds the loop succeeds; rows clipped at the bottom edge
and cells outside the sprite footprint are untouched; each drawn cell is
XOR-composited; and the collision output is 1 exactly when some drawn
sprite bit hit a set display cell (or it came in as 1). -/
theorem drawRowsAux_ok :
    ∀ (memory : Nat → Nat) (i xCoord yCoord fuel sprite_y : Nat) (display : Nat → Nat) (vf : Nat),
      (∀ r, sprite_y ≤ r → r < sprite_y + fuel → yCoord + r < 32 → i + r < 4096) →
      ∃ disp2 vf2,
        drawRowsAux memory i xCoord yCoord fuel sprite_y display vf = .ok (disp2, vf2) ∧
        (∀ a, (∀ r c, sprite_y ≤ r → r < sprite_y + fuel → yCoord + r < 32 → c < 8 →
            xCoord + c < 64 → a ≠ (yCoord + r) * 64 + (xCoord + c)) →
          disp2 a = display a) ∧
        (∀ r c, sprite_y ≤ r → r < sprite_y + fuel → yCoord + r < 32 → c < 8 → xCoord + c < 64 →
          disp2 ((yCoord + r) * 64 + (xCoord + c)) =
            (if spriteBit (memory (i + r)) c = 1 then
              (if display ((yCoord + r) * 64 + (xCoord + c)) = 1 then 0 else 1)
            else display ((yCoord + r) * 64 + (xCoord + c)))) ∧
        (vf2 = 1 ↔ (vf = 1 ∨ ∃ r c, sprite_y ≤ r ∧ r < sprite_y + fuel ∧ yCoord + r < 32 ∧
          c < 8 ∧ xCoord + c < 64 ∧ spriteBit (memory (i + r)) c = 1 ∧
          display ((yCoord + r) * 64 + (xCoord + c)) = 1)) ∧
        (vf2 = vf ∨ vf2 = 1) := by
  intro memory i xCoord yCoord fuel
  induction fuel with
  | zero =>
    intro sprite_y display vf _
    refine ⟨display, vf, rfl, fun a _ => rfl, fun r c hr1 hr2 => by omega, ?_, Or.inl rfl⟩
    constructor
    · exact fun h => Or.inl h
    · rintro (h | ⟨r, c, hr1, hr2, _⟩)
      · exact h
      · omega
  | succ fuel ih =>
    intro sprite_y display vf h
    by_cases h32 : 32 ≤ yCoord + sprite_y
    · have heq : drawRowsAux memory i xCoord yCoord (fuel + 1) sprite_y display vf =
          .ok (display, vf) := by
        simp only [drawRowsAux]
        rw [if_pos h32]
      refine ⟨display, vf, heq, fun a _ => rfl, fun r c hr1 hr2 hr3 => by omega, ?_, Or.inl rfl⟩
      constructor
      · exact fun hv => Or.inl hv
      · rintro (hv | ⟨r, c, hr1, hr2, hr3, _⟩)
        · exact hv
        · omega
    · have hbound : i + sprite_y < 4096 := h sprite_y (Nat.le_refl _) (by omega) (by omega)
      obtain ⟨C1, C2, C3, C4⟩ := drawColsAux_char xCoord ((yCoord + sprite_y) * 64)
        (memory (i + sprite_y)) 8 0 display vf
      obtain ⟨disp2, vf2, heq2, IH1, IH2, IH3, IH4⟩ := ih (sprite_y + 1)
        (drawColsAux xCoord ((yCoord + sprite_y) * 64) (memory (i + sprite_y)) 8 0 display vf).1
        (drawColsAux xCoord ((yCoord + sprite_y) * 64) (memory (i + sprite_y)) 8 0 display vf).2
        (fun r hr1 hr2 hr3 => h r (by omega) (by omega) hr3)
      have heq : drawRowsAux memory i xCoord yCoord (fuel + 1) sprite_y display vf =
          .ok (disp2, vf2) := by
        simp only [drawRowsAux]
        rw [if_neg h32, if_pos hbound]
        exact heq2
      refine ⟨disp2, vf2, heq, ?_, ?_, ?_, ?_⟩
      · intro a ha
        rw [IH1 a (fun r c hr1 hr2 hr3 hc1 hc2 => ha r c (by omega) (by omega) hr3 hc1 hc2)]
        exact C1 a (fun c hc1 hc2 hc3 =>
          ha sprite_y c (Nat.le_refl _) (by omega) (by omega) (by omega) hc3)
      · intro r c hr1 hr2 hr3 hc1 hc2
        rcases Nat.eq_or_lt_of_le hr1 with hEq | hlt
        · have hrs : r = sprite_y := by omega
          subst hrs
          rw [IH1 ((yCoord + r) * 64 + (xCoord + c))
            (fun r2 c2 hr4 hr5 hr6 hc3 hc4 => by
              intro hbad
              omega)]
          exact C2 c (by omega) (by omega) hc2
        · rw [IH2 r c hlt (by omega) hr3 hc1 hc2]
          rw [C1 ((yCoord + r) * 64 + (xCoord + c))
            (fun c2 hc3 hc4 hc5 => by
              intro hbad
              omega)]
      · rw [IH3]
        constructor
        · rintro (hv | ⟨r, c, hr1, hr2, hr3, hc1, hc2, hc3, hc4⟩)
          · rcases C3.mp hv with hv2 | ⟨c, hc1, hc2, hc3, hc4, hc5⟩
            · exact Or.inl hv2
            · exact Or.inr ⟨sprite_y, c, Nat.le_refl _, by omega, by omega, by omega, hc3, hc4, hc5⟩
          · refine Or.inr ⟨r, c, by omega, by omega, hr3, hc1, hc2, hc3, ?_⟩
            rw [← hc4]
            exact (C1 ((yCoord + r) * 64 + (xCoord + c))
              (fun c2 hc5 hc6 hc7 => by
                intro hbad
                omega)).symm
        · rintro (hv | ⟨r, c, hr1, hr2, hr3, hc1, hc2, hc3, hc4⟩)
          · exact Or.inl (C3.mpr (Or.inl hv))
          · rcases Nat.eq_or_lt_of_le hr1 with hEq | hlt
            · have hrs : r = sprite_y := by omega
              subst hrs
              exact Or.inl (C3.mpr (Or.inr ⟨c, by omega, by omega, hc2, hc3, hc4⟩))
            · refine Or.inr ⟨r, c, hlt, by omega, hr3, hc1, hc2, hc3, ?_⟩
              rw [C1 ((yCoord + r) * 64 + (xCoord + c))
                (fun c2 hc5 hc6 hc7 => by
                  intro hbad
                  omega)]
              exact hc4
      · rcases IH4 with hv | hv
        · rcases C4 with hv2 | hv2
          · exact Or.inl (hv.trans hv2)
          · exact Or.inr (hv.trans hv2)
        · exact Or.inr hv

/-- Claim C4 (amended): provided every fetched sprite-row address
`I + row` is inside the 4096-byte memory, `Draw(x,y,n)` succeeds; the start
coordinates wrap on entry (`Vx mod 64`, `Vy mod 32`); rows past the bottom
edge and columns past the right edge are skipped, not wrapped; every drawn
cell is XOR-composited; `VF` ends 1 exactly when some display cell went
from set to unset (and is 0 otherwise, having been reset to 0 first); the dirty
flag is set by the call even when no pixel changed; and no other machine
state changes.  Without the bounds premise the Rust code faults instead
(see the counterexample). -/
theorem c4_draw :
    ∀ (s : Chip8) (x y n : Nat),
      (∀ r, r < n → s.registers y % 32 + r < 32 → s.i + r < 4096) →
      ∃ s2, s.draw x y n = .ok s2 ∧
        s2.can_draw = true ∧
        (∀ a, (∀ r c, r < n → s.registers y % 32 + r < 32 → c < 8 →
            s.registers x % 64 + c < 64 →
            a ≠ (s.registers y % 32 + r) * 64 + (s.registers x % 64 + c)) →
          s2.display a = s.display a) ∧
        (∀ r c, r < n → s.registers y % 32 + r < 32 → c < 8 → s.registers x % 64 + c < 64 →
          s2.display ((s.registers y % 32 + r) * 64 + (s.registers x % 64 + c)) =
            (if spriteBit (s.memory (s.i + r)) c = 1 then
              (if s.display ((s.registers y % 32 + r) * 64 + (s.registers x % 64 + c)) = 1
                then 0 else 1)
            else s.display ((s.registers y % 32 + r) * 64 + (s.registers x % 64 + c)))) ∧
        (s2.registers 0xF = 1 ↔ ∃ r c, r < n ∧ s.registers y % 32 + r < 32 ∧ c < 8 ∧
          s.registers x % 64 + c < 64 ∧ spriteBit (s.memory (s.i + r)) c = 1 ∧
          s.display ((s.registers y % 32 + r) * 64 + (s.registers x % 64 + c)) = 1) ∧
        (s2.registers 0xF = 0 ∨ s2.registers 0xF = 1) ∧
        (∀ r, r ≠ 0xF → s2.registers r = s.registers r) ∧
        s2.memory = s.memory ∧ s2.i = s.i ∧ s2.pc = s.pc ∧ s2.sp = s.sp ∧
        s2.stack = s.stack ∧ s2.keys = s.keys ∧ s2.delay_timer = s.delay_timer ∧
        s2.sound_timer = s.sound_timer ∧ s2.shift_quirk = s.shift_quirk := by
  intro s x y n h
  obtain ⟨disp2, vf2, heq, H1, H2, H3, H4⟩ :=
    drawRowsAux_ok s.memory s.i (s.registers x % 64) (s.registers y % 32) n 0 s.display 0
      (fun r _ hr2 hr3 => h r (by omega) hr3)
  have hdraw : s.draw x y n =
      .ok { s with display := disp2, registers := upd s.registers 0xF vf2, can_draw := true } := by
    unfold Chip8.draw
    simp only [heq]
  refine ⟨_, hdraw, rfl, ?_, ?_, ?_, ?_, ?_, rfl, rfl, rfl, rfl, rfl, rfl, rfl, rfl, rfl⟩
  · intro a ha
    exact H1 a (fun r c _ hr2 hr3 hc1 hc2 => ha r c (by omega) hr3 hc1 hc2)
  · intro r c hr1 hr2 hc1 hc2
    exact H2 r c (by omega) (by omega) hr2 hc1 hc2
  · show upd s.registers 0xF vf2 0xF = 1 ↔ _
    rw [show upd s.registers 0xF vf2 0xF = vf2 by simp [upd]]
    rw [H3]
    constructor
    · rintro (hv | ⟨r, c, hr0, hr1, hr2, hc1, hc2, hc3, hc4⟩)
      · omega
      · exact ⟨r, c, by omega, hr2, hc1, hc2, hc3, hc4⟩
    · rintro ⟨r, c, hr1, hr2, hc1, hc2, hc3, hc4⟩
      exact Or.inr ⟨r, c, by omega, by omega, hr2, hc1, hc2, hc3, hc4⟩
  · show upd s.registers 0xF vf2 0xF = 0 ∨ upd s.registers 0xF vf2 0xF = 1
    rw [show upd s.registers 0xF vf2 0xF = vf2 by simp [upd]]
    rcases H4 with hv | hv
    · exact Or.inl hv
    · exact Or.inr hv
  · intro r hr
    simp [upd, hr]

/-- Claim C4, counterexample: at a state with `I = 4095` a two-row `Draw`
faults on the second sprite-row fetch (`memory[4096]` is out of range), so
`Draw` does not composite the rows or set the dirty flag for every state as
the claim demands. -/
theorem c4_draw_counterexample :
    Chip8.draw { zeroState with i := 4095 } 0 0 2 = .error .memoryFault := by
  rfl

/-- Claim C4 witness: the amended draw characterization applied at the
all-zero state with `n = 0`: the draw succeeds and sets the dirty flag. -/
theorem c4_draw_witness :
    ∃ s2, Chip8.draw zeroState 0 0 0 = .ok s2 ∧ s2.can_draw = true := by
  obtain ⟨s2, h1, h2, _⟩ := c4_draw zeroState 0 0 0 (fun r hr h32 => by omega)
  exact ⟨s2, h1, h2⟩
